import Mathlib

/-!
Shallow embedding of the `unique-icp-canister` account canisters.

Two source variants are embedded:

* `Canister.Gen` — `src/src/index.ts`: accounts keyed by a generated
  uuid string, with a password-reset workflow.
* `Canister.Idk` — the identity-keyed variant (`src/unnamed/part_000`):
  accounts keyed by the caller Principal (modelled by its textual
  form), with admin-gated deletion and secret-based account reclaim.

The Azle `StableBTreeMap` is modelled as an association list strictly
sorted by key, so `StableBTreeMap.values` enumerates records in key
order exactly as `userStorage.values()` does.  Host inputs
(`ic.caller()`, `ic.time()`, `uuidv4()`, `Math.random()`) are passed as
explicit parameters.
-/

namespace Canister

/-- `Result<T, string>` from Azle: an `Ok` value or a string error. -/
inductive Result (α : Type) : Type
  | Ok : α → Result α
  | Err : String → Result α
deriving DecidableEq, Repr

/-- Functorial action on the success value of a `Result`. -/
def Result.mapOk {α β : Type} (f : α → β) : Result α → Result β
  | Result.Ok a => Result.Ok (f a)
  | Result.Err e => Result.Err e

/-- The key type of both `StableBTreeMap`s: uuid strings in the
generated-key variant, the textual form of a `Principal` in the
identity-keyed variant. -/
abbrev Key := String

/-- A `StableBTreeMap<Key, V>` state: an association list of
key-record pairs.  Genuine map states keep the list strictly sorted by
key (`SortedKeys`), so that iteration is in key order. -/
abbrev Store (V : Type) := List (Key × V)

/-- Lexicographic strict order on character lists, the order in which
the store keeps its keys. -/
def lexLt : List Char → List Char → Bool
  | [], [] => false
  | [], _ :: _ => true
  | _ :: _, [] => false
  | a :: as, b :: bs => if a < b then true else if a = b then lexLt as bs else false

/-- The strict order on store keys. -/
def keyLt (a b : Key) : Bool := lexLt a.data b.data

namespace StableBTreeMap

/-- `userStorage.get(k)`. -/
def get {V : Type} : Store V → Key → Option V
  | [], _ => none
  | (k1, v) :: rest, k => if k = k1 then some v else get rest k

/-- `userStorage.insert(k, v)`: upsert, keeping the list sorted by
key. -/
def insert {V : Type} (k : Key) (v : V) : Store V → Store V
  | [] => [(k, v)]
  | (k1, v1) :: rest =>
    if keyLt k k1 then (k, v) :: (k1, v1) :: rest
    else if k = k1 then (k, v) :: rest
    else (k1, v1) :: insert k v rest

/-- `userStorage.remove(k)`: the store after removal, together with
the removed value when the key was present. -/
def remove {V : Type} (k : Key) : Store V → Store V × Option V
  | [] => ([], none)
  | (k1, v1) :: rest =>
    if k = k1 then (rest, some v1)
    else
      let r := remove k rest
      ((k1, v1) :: r.1, r.2)

/-- `userStorage.values()`: all records, in key order. -/
def values {V : Type} (s : Store V) : List V := s.map Prod.snd

end StableBTreeMap

/-- Keys strictly increase along the list: the representation
invariant of a `StableBTreeMap` state. -/
abbrev SortedKeys {V : Type} (s : Store V) : Prop :=
  List.Pairwise (fun a b => keyLt a.1 b.1 = true) s

namespace Gen

/-- The `User` record of `src/src/index.ts`. -/
structure User where
  id : String
  username : String
  email : String
  password : String
  createdAt : Nat
  resetToken : Option String
deriving DecidableEq, Repr

/-- The registration/update payload of `src/src/index.ts`. -/
structure UserPayload where
  username : String
  email : String
  password : String
deriving DecidableEq, Repr

/-- `getUsers()`. -/
def getUsers (s : Store User) : Result (List User) :=
  Result.Ok (StableBTreeMap.values s)

/-- `getUser(id)`. -/
def getUser (id : String) (s : Store User) : Result User :=
  match StableBTreeMap.get s id with
  | some user => Result.Ok user
  | none => Result.Err ("User with id=" ++ id ++ " not found")

/-- `registerUser(payload)`; the host inputs `uuidv4()` and
`ic.time()` are passed as `newId` and `now`.  The spread `...payload`
comes last, so the payload fields land on top of the generated ones;
the payload carries no `id`, `createdAt` or `resetToken`, so those
keep the generated values. -/
def registerUser (newId : String) (now : Nat) (payload : UserPayload)
    (s : Store User) : Store User × Result User :=
  let user : User :=
    { id := newId, username := payload.username, email := payload.email,
      password := payload.password, createdAt := now, resetToken := none }
  (StableBTreeMap.insert user.id user s, Result.Ok user)

/-- The predicate of the `.find` scan inside `loginUser`. -/
def loginMatch (username password : String) (u : User) : Bool :=
  u.username == username && u.password == password

/-- `loginUser(username, password)`: a query, it does not mutate the
store. -/
def loginUser (username password : String) (s : Store User) : Result User :=
  match (StableBTreeMap.values s).find? (loginMatch username password) with
  | some user => Result.Ok user
  | none => Result.Err "Invalid username or password"

/-- `deleteUser(id)`. -/
def deleteUser (id : String) (s : Store User) : Store User × Result User :=
  match StableBTreeMap.remove id s with
  | (s1, some deletedUser) => (s1, Result.Ok deletedUser)
  | (s1, none) => (s1, Result.Err ("User with id=" ++ id ++ " not found"))

/-- JavaScript `a || b` on strings: the empty string is falsy. -/
def jsOrString (a b : String) : String := if a == "" then b else a

/-- `updateUser(id, payload)`: each field is taken from the payload
when truthy (non-empty), otherwise kept. -/
def updateUser (id : String) (payload : UserPayload) (s : Store User) :
    Store User × Result User :=
  match StableBTreeMap.get s id with
  | some user =>
    let updatedUser : User :=
      { user with
        username := jsOrString payload.username user.username,
        email := jsOrString payload.email user.email,
        password := jsOrString payload.password user.password }
    (StableBTreeMap.insert id updatedUser s, Result.Ok updatedUser)
  | none => (s, Result.Err ("User with id=" ++ id ++ " not found"))

/-- `changePassword(id, newPassword)`. -/
def changePassword (id : String) (newPassword : String) (s : Store User) :
    Store User × Result User :=
  match StableBTreeMap.get s id with
  | some user =>
    let updatedUser : User := { user with password := newPassword }
    (StableBTreeMap.insert id updatedUser s, Result.Ok updatedUser)
  | none => (s, Result.Err ("User with id=" ++ id ++ " not found"))

/-- The alphabet of `generateResetToken`. -/
def characters : String :=
  "ABCDEFGHIJKLMNOPQRSTUVWXYZabcdefghijklmnopqrstuvwxyz0123456789"

/-- One call of `Math.floor(Math.random() * characters.length)`: a
number in `[0, 62)`, since `Math.random()` lies in `[0, 1)` and the
alphabet has 62 characters.  The whole random source is a map from the
loop index to the drawn index. -/
abbrev Rand := Nat → Fin 62

/-- `generateResetToken()`: five characters drawn from the alphabet,
`rnd i` being the random index of loop iteration `i`. -/
def generateResetToken (rnd : Rand) : String :=
  ⟨(List.range 5).map
    (fun i => characters.data.get
      (Fin.cast (by decide : (62 : Nat) = characters.data.length) (rnd i)))⟩

/-- The predicate of the `.find` scan inside `requestPasswordReset`. -/
def emailMatch (email : String) (u : User) : Bool := u.email == email

/-- `requestPasswordReset(email)`. -/
def requestPasswordReset (rnd : Rand) (email : String) (s : Store User) :
    Store User × Result String :=
  match (StableBTreeMap.values s).find? (emailMatch email) with
  | some user =>
    let resetToken := generateResetToken rnd
    (StableBTreeMap.insert user.id { user with resetToken := some resetToken } s,
      Result.Ok resetToken)
  | none => (s, Result.Err "User with the specified email not found")

/-- The predicate of the `.find` scan inside `resetPassword`: the
match on the stored `Opt` is true exactly when the token is `Some` and
equals the input (case-sensitive string equality). -/
def tokenMatch (resetToken : String) (u : User) : Bool :=
  u.resetToken == some resetToken

/-- `resetPassword(resetToken, newPassword)`. -/
def resetPassword (resetToken newPassword : String) (s : Store User) :
    Store User × Result User :=
  match (StableBTreeMap.values s).find? (tokenMatch resetToken) with
  | some user =>
    let updatedUser : User :=
      { user with password := newPassword, resetToken := none }
    (StableBTreeMap.insert user.id updatedUser s, Result.Ok updatedUser)
  | none => (s, Result.Err "Invalid or expired reset token")

/-- An alphanumeric character in the sense of the spec: `A`-`Z`,
`a`-`z` or `0`-`9`. -/
def isAlnum (c : Char) : Bool :=
  (("A".get 0 ≤ c) && (c ≤ "Z".get 0)) ||
  (("a".get 0 ≤ c) && (c ≤ "z".get 0)) ||
  (("0".get 0 ≤ c) && (c ≤ "9".get 0))

/-- Success payloads of the exposed operations, used to give all of
them one result type in the transition function. -/
inductive Val : Type
  | user : User → Val
  | users : List User → Val
  | str : String → Val
deriving DecidableEq, Repr

/-- One external call into the generated-key canister, host inputs
included. -/
inductive Op : Type
  | getUsersOp : Op
  | getUserOp : String → Op
  | registerUserOp : String → Nat → UserPayload → Op
  | loginUserOp : String → String → Op
  | deleteUserOp : String → Op
  | updateUserOp : String → UserPayload → Op
  | changePasswordOp : String → String → Op
  | requestPasswordResetOp : Rand → String → Op
  | resetPasswordOp : String → String → Op

/-- The transition function of the generated-key canister: queries
pass the store through unchanged (the host gives queries no way to
commit writes), updates return the new store. -/
def step : Op → Store User → Store User × Result Val
  | Op.getUsersOp, s => (s, Result.mapOk Val.users (getUsers s))
  | Op.getUserOp id, s => (s, Result.mapOk Val.user (getUser id s))
  | Op.registerUserOp newId now p, s =>
    ((registerUser newId now p s).1,
      Result.mapOk Val.user (registerUser newId now p s).2)
  | Op.loginUserOp u p, s => (s, Result.mapOk Val.user (loginUser u p s))
  | Op.deleteUserOp id, s =>
    ((deleteUser id s).1, Result.mapOk Val.user (deleteUser id s).2)
  | Op.updateUserOp id p, s =>
    ((updateUser id p s).1, Result.mapOk Val.user (updateUser id p s).2)
  | Op.changePasswordOp id pw, s =>
    ((changePassword id pw s).1,
      Result.mapOk Val.user (changePassword id pw s).2)
  | Op.requestPasswordResetOp rnd email, s =>
    ((requestPasswordReset rnd email s).1,
      Result.mapOk Val.str (requestPasswordReset rnd email s).2)
  | Op.resetPasswordOp tok pw, s =>
    ((resetPassword tok pw s).1,
      Result.mapOk Val.user (resetPassword tok pw s).2)

/-- Key-consistency of the generated-key store: every stored record
carries its own key in its `id` field. -/
abbrev WF (s : Store User) : Prop := ∀ kv ∈ s, (Prod.snd kv).id = kv.1

end Gen

namespace Idk

/-- The `User` record of the identity-keyed variant. -/
structure User where
  username : String
  email : String
  secret : String
  createdAt : Nat
deriving DecidableEq, Repr

/-- The registration payload of the identity-keyed variant. -/
structure UserPayload where
  username : String
  email : String
  secret : String
deriving DecidableEq, Repr

/-- The textual form of the anonymous principal, which `registerUser`
rejects. -/
def anonymousText : String := "2vxsx-fae"

/-- `getUsers()`. -/
def getUsers (s : Store User) : Result (List User) :=
  Result.Ok (StableBTreeMap.values s)

/-- `getUser(id)`: `Principal.fromText(id)` maps valid principal text
to the key, modelled by the text itself. -/
def getUser (id : String) (s : Store User) : Result User :=
  match StableBTreeMap.get s id with
  | some user => Result.Ok user
  | none => Result.Err "User dont have an account registered yet"

/-- `registerUser(payload)`: the caller identity (`ic.caller()`) is
the key; the anonymous identity is rejected; otherwise the record is
inserted for the caller with no already-registered check, so an
existing record is overwritten. -/
def registerUser (caller : String) (now : Nat) (payload : UserPayload)
    (s : Store User) : Store User × Result User :=
  if caller == anonymousText then
    (s, Result.Err "Anonymous users are not allowed to register accounts")
  else
    let user : User :=
      { username := payload.username, email := payload.email,
        secret := payload.secret, createdAt := now }
    (StableBTreeMap.insert caller user s, Result.Ok user)

/-- `loginUser()`: a query keyed on the caller identity; the store is
passed through unchanged (the host gives queries no way to commit
writes, and the body performs no write anyway). -/
def loginUser (caller : String) (s : Store User) :
    Store User × Result User :=
  match StableBTreeMap.get s caller with
  | none => (s, Result.Err "You dont have an account yet")
  | some user => (s, Result.Ok user)

/-- The guard `caller === adminPrincipal` of `deleteUser`, JavaScript
strict equality between two `Principal` objects.  `===` on two objects
is reference equality; `ic.caller()` builds a fresh `Principal` object
on every call while `adminPrincipal` was built separately by
`Principal.fromText` inside `init`, so the two references are never
the same object and the comparison is `false` for every caller, the
admin included. -/
def principalObjectEq (_caller _admin : String) : Bool := false

/-- `deleteUser(id)`: gated on `caller === adminPrincipal` (see
`principalObjectEq`); `admin` is the principal text fixed by `init`. -/
def deleteUser (caller admin : String) (id : String) (s : Store User) :
    Store User × Result User :=
  if principalObjectEq caller admin then
    match StableBTreeMap.remove id s with
    | (s1, some deletedUser) => (s1, Result.Ok deletedUser)
    | (s1, none) =>
      (s1, Result.Err ("User with Principal Id=" ++ id ++ " not found"))
  else (s, Result.Err "You are not authorized")

/-- The confirmation message returned by `reclaimAccount`. -/
def reclaimMessage : String :=
  "Your account details have been restored, you can now login with the current Principal ID"

/-- `reclaimAccount(account, secret)`: on a secret match the old
record is inserted under the caller key; the entry under the old key
is not removed. -/
def reclaimAccount (caller : String) (account secret : String)
    (s : Store User) : Store User × Result String :=
  match StableBTreeMap.get s account with
  | none => (s, Result.Err "This account does not exist")
  | some oldAccount =>
    if oldAccount.secret == secret then
      (StableBTreeMap.insert caller oldAccount s, Result.Ok reclaimMessage)
    else (s, Result.Err "The secrets dont match, try again later")

/-- Success payloads of the exposed operations of the identity-keyed
variant. -/
inductive Val : Type
  | user : User → Val
  | users : List User → Val
  | str : String → Val
deriving DecidableEq, Repr

/-- One external call into the identity-keyed canister, host inputs
(caller, time) and the `init`-fixed admin principal included. -/
inductive Op : Type
  | getUsersOp : Op
  | getUserOp : String → Op
  | registerUserOp : String → Nat → UserPayload → Op
  | loginUserOp : String → Op
  | deleteUserOp : String → String → String → Op
  | reclaimAccountOp : String → String → String → Op
deriving DecidableEq, Repr

/-- The transition function of the identity-keyed canister. -/
def step : Op → Store User → Store User × Result Val
  | Op.getUsersOp, s => (s, Result.mapOk Val.users (getUsers s))
  | Op.getUserOp id, s => (s, Result.mapOk Val.user (getUser id s))
  | Op.registerUserOp caller now p, s =>
    ((registerUser caller now p s).1,
      Result.mapOk Val.user (registerUser caller now p s).2)
  | Op.loginUserOp caller, s =>
    ((loginUser caller s).1, Result.mapOk Val.user (loginUser caller s).2)
  | Op.deleteUserOp caller admin id, s =>
    ((deleteUser caller admin id s).1,
      Result.mapOk Val.user (deleteUser caller admin id s).2)
  | Op.reclaimAccountOp caller account secret, s =>
    ((reclaimAccount caller account secret s).1,
      Result.mapOk Val.str (reclaimAccount caller account secret s).2)

end Idk

/-! Helper lemmas about the key order and the store operations. -/

theorem lexLt_irrefl : ∀ l : List Char, lexLt l l = false
  | [] => rfl
  | a :: as => by simp [lexLt, lexLt_irrefl as]

theorem keyLt_ne {a b : Key} (h : keyLt a b = true) : a ≠ b := by
  intro e
  subst e
  rw [keyLt, lexLt_irrefl] at h
  exact Bool.noConfusion h

theorem lexLt_trans :
    ∀ (a b c : List Char), lexLt a b = true → lexLt b c = true → lexLt a c = true
  | [], [], _, hab, _ => by simp [lexLt] at hab
  | [], _ :: _, [], _, hbc => by simp [lexLt] at hbc
  | [], _ :: _, _ :: _, _, _ => rfl
  | _ :: _, [], _, hab, _ => by simp [lexLt] at hab
  | _ :: _, _ :: _, [], _, hbc => by simp [lexLt] at hbc
  | a :: as, b :: bs, c :: cs, hab, hbc => by
    simp only [lexLt] at hab hbc ⊢
    by_cases h1 : a < b
    · by_cases h2 : b < c
      · simp [lt_trans h1 h2]
      · simp only [h2, if_false, if_neg h2] at hbc
        by_cases h3 : b = c
        · subst h3
          simp [h1]
        · simp [h3] at hbc
    · simp only [if_neg h1] at hab
      by_cases h3 : a = b
      · subst h3
        simp only [if_pos rfl] at hab
        by_cases h2 : a < c
        · simp [h2]
        · simp only [if_neg h2] at hbc ⊢
          by_cases h4 : a = c
          · subst h4
            simp only [if_pos rfl] at hbc ⊢
            exact lexLt_trans as bs cs hab hbc
          · simp [h4] at hbc
      · simp [h3] at hab

theorem keyLt_trans {a b c : Key} (hab : keyLt a b = true)
    (hbc : keyLt b c = true) : keyLt a c = true :=
  lexLt_trans a.data b.data c.data hab hbc

namespace StableBTreeMap

theorem get_insert_self {V : Type} (k : Key) (v : V) (s : Store V) :
    get (insert k v s) k = some v := by
  induction s with
  | nil => simp [insert, get]
  | cons kv1 rest ih =>
    obtain ⟨k1, v1⟩ := kv1
    by_cases hlt : keyLt k k1
    · simp [insert, hlt, get]
    · by_cases heq : k = k1
      · subst heq
        simp [insert, hlt, get]
      · simp [insert, hlt, heq, get, ih]

theorem get_insert_ne {V : Type} {k k2 : Key} (v : V) (s : Store V)
    (h : k2 ≠ k) : get (insert k v s) k2 = get s k2 := by
  induction s with
  | nil => simp [insert, get, h]
  | cons kv1 rest ih =>
    obtain ⟨k1, v1⟩ := kv1
    by_cases hlt : keyLt k k1
    · simp [insert, hlt, get, h]
    · by_cases heq : k = k1
      · subst heq
        simp [insert, hlt, get, h]
      · simp [insert, hlt, heq, get, ih]

theorem remove_eq_of_none {V : Type} {k : Key} {s : Store V}
    (h : (remove k s).2 = none) : (remove k s).1 = s := by
  induction s with
  | nil => rfl
  | cons kv1 rest ih =>
    obtain ⟨k1, v1⟩ := kv1
    by_cases heq : k = k1
    · simp [remove, heq] at h
    · simp only [remove, if_neg heq] at h ⊢
      simp only [List.cons.injEq, true_and]
      exact ih h

theorem mem_insert {V : Type} {kv : Key × V} {k : Key} {v : V}
    {s : Store V} (h : kv ∈ insert k v s) : kv = (k, v) ∨ kv ∈ s := by
  induction s with
  | nil => simpa [insert] using h
  | cons kv1 rest ih =>
    by_cases hlt : keyLt k kv1.1
    · simp only [insert, if_pos hlt, List.mem_cons] at h
      rcases h with h | h | h
      · exact Or.inl h
      · exact Or.inr (by simp [h])
      · exact Or.inr (by simp [h])
    · by_cases heq : k = kv1.1
      · simp only [insert, if_neg hlt, if_pos heq, List.mem_cons] at h
        rcases h with h | h
        · exact Or.inl h
        · exact Or.inr (by simp [h])
      · simp only [insert, if_neg hlt, if_neg heq, List.mem_cons] at h
        rcases h with h | h
        · exact Or.inr (by simp [h])
        · rcases ih h with h2 | h2
          · exact Or.inl h2
          · exact Or.inr (by simp [h2])

theorem mem_remove {V : Type} {kv : Key × V} {k : Key} {s : Store V}
    (h : kv ∈ (remove k s).1) : kv ∈ s := by
  induction s with
  | nil => simp [remove] at h
  | cons kv1 rest ih =>
    by_cases heq : k = kv1.1
    · simp only [remove, if_pos heq] at h
      exact List.mem_cons_of_mem _ h
    · simp only [remove, if_neg heq, List.mem_cons] at h
      rcases h with h | h
      · exact h ▸ List.mem_cons_self _ _
      · exact List.mem_cons_of_mem _ (ih h)

theorem get_mem {V : Type} {s : Store V} {k : Key} {v : V}
    (h : get s k = some v) : (k, v) ∈ s := by
  induction s with
  | nil => simp [get] at h
  | cons kv1 rest ih =>
    by_cases heq : k = kv1.1
    · simp only [get, if_pos heq] at h
      subst heq
      obtain ⟨k1, v1⟩ := kv1
      simp_all
    · simp only [get, if_neg heq] at h
      exact List.mem_cons_of_mem _ (ih h)

theorem mem_insert_iff_of_sorted {V : Type} {k : Key} {v : V} :
    ∀ {s : Store V}, SortedKeys s → ∀ kv : Key × V,
      (kv ∈ insert k v s ↔ kv = (k, v) ∨ (kv ∈ s ∧ kv.1 ≠ k)) := by
  intro s
  induction s with
  | nil => intro _ kv; simp [insert]
  | cons kv1 rest ih =>
    intro hs kv
    obtain ⟨hhead, htail⟩ := List.pairwise_cons.mp hs
    by_cases hlt : keyLt k kv1.1
    · simp only [insert, if_pos hlt, List.mem_cons]
      constructor
      · rintro (h | h | h)
        · exact Or.inl h
        · refine Or.inr ⟨Or.inl h, ?_⟩
          rw [h]
          exact (keyLt_ne hlt).symm
        · refine Or.inr ⟨Or.inr h, ?_⟩
          exact (keyLt_ne (keyLt_trans hlt (hhead kv h))).symm
      · rintro (h | ⟨h | h, _⟩)
        · exact Or.inl h
        · exact Or.inr (Or.inl h)
        · exact Or.inr (Or.inr h)
    · by_cases heq : k = kv1.1
      · simp only [insert, if_neg hlt, if_pos heq, List.mem_cons]
        constructor
        · rintro (h | h)
          · exact Or.inl h
          · refine Or.inr ⟨Or.inr h, ?_⟩
            rw [← heq] at hhead
            exact (keyLt_ne (hhead kv h)).symm
        · rintro (h | ⟨h | h, hne⟩)
          · exact Or.inl h
          · exfalso
            apply hne
            rw [h, heq]
          · exact Or.inr h
      · simp only [insert, if_neg hlt, if_neg heq, List.mem_cons, ih htail kv]
        constructor
        · rintro (h | h | h)
          · refine Or.inr ⟨Or.inl h, ?_⟩
            rw [h]
            exact fun e => heq e.symm
          · exact Or.inl h
          · exact Or.inr ⟨Or.inr h.1, h.2⟩
        · rintro (h | ⟨h | h, hne⟩)
          · exact Or.inr (Or.inl h)
          · exact Or.inl h
          · exact Or.inr (Or.inr ⟨h, hne⟩)

theorem mem_values {V : Type} {s : Store V} {v : V} :
    v ∈ values s ↔ ∃ k : Key, (k, v) ∈ s := by
  simp only [values, List.mem_map]
  constructor
  · rintro ⟨⟨k, v1⟩, hm, rfl⟩
    exact ⟨k, hm⟩
  · rintro ⟨k, hm⟩
    exact ⟨(k, v), hm, rfl⟩

end StableBTreeMap

theorem Gen.WF_insert {s : Store Gen.User} {k : Key} {u : Gen.User}
    (hu : u.id = k) (h : Gen.WF s) :
    Gen.WF (StableBTreeMap.insert k u s) := by
  intro kv hm
  rcases StableBTreeMap.mem_insert hm with h1 | h1
  · rw [h1]
    exact hu
  · exact h kv h1

theorem Idk.loginUser_fst (caller : String) (s : Store Idk.User) :
    (Idk.loginUser caller s).1 = s := by
  cases h : StableBTreeMap.get s caller <;> simp [Idk.loginUser, h]

end Canister

open Canister

set_option maxRecDepth 4096 in
theorem characters_all_alnum :
    Gen.characters.data.all Gen.isAlnum = true := by decide

theorem generateResetToken_length (rnd : Gen.Rand) :
    (Gen.generateResetToken rnd).length = 5 := by
  show ((List.range 5).map _).length = 5
  rw [List.length_map, List.length_range]

theorem generateResetToken_chars (rnd : Gen.Rand) :
    ∀ c ∈ (Gen.generateResetToken rnd).data, Gen.isAlnum c = true := by
  intro c hc
  simp only [Gen.generateResetToken] at hc
  rw [List.mem_map] at hc
  obtain ⟨i, _, rfl⟩ := hc
  have hall := characters_all_alnum
  rw [List.all_eq_true] at hall
  exact hall _ (List.get_mem _ _ _)

theorem loginMatch_iff (username password : String) (u : Gen.User) :
    Gen.loginMatch username password u = true ↔
      u.username = username ∧ u.password = password := by
  simp [Gen.loginMatch]

/-- C1, counterexample: in the identity-keyed variant, a second
registerUser call from a caller identity that is already a registered
key does not return an AlreadyExists error.  Concretely, after caller
aaaaa-aa registers once, a second registerUser call by the same caller
returns Ok with a record built from the new payload and timestamp, and
the stored record for that key is overwritten, not unchanged. -/
theorem c1_counterexample :
    (Idk.registerUser "aaaaa-aa" 20 ⟨"bo", "b@x", "s2"⟩
        (Idk.registerUser "aaaaa-aa" 10 ⟨"al", "a@x", "s1"⟩ []).1).2 =
      Result.Ok ⟨"bo", "b@x", "s2", 20⟩
    ∧ StableBTreeMap.get
        (Idk.registerUser "aaaaa-aa" 20 ⟨"bo", "b@x", "s2"⟩
          (Idk.registerUser "aaaaa-aa" 10 ⟨"al", "a@x", "s1"⟩ []).1).1 "aaaaa-aa" =
      some ⟨"bo", "b@x", "s2", 20⟩
    ∧ (⟨"bo", "b@x", "s2", 20⟩ : Idk.User) ≠ ⟨"al", "a@x", "s1", 10⟩ := by
  decide

/-- C1, amended: in the identity-keyed variant, registerUser performs
no already-registered check.  Every non-anonymous caller gets Ok and
the record built from the payload and the current time is inserted for
the caller key, overwriting any existing record; only the anonymous
identity 2vxsx-fae is rejected, with the store unchanged. -/
theorem c1_amended_thm (caller : String) (now : Nat) (p : Idk.UserPayload)
    (s : Store Idk.User) :
    (caller ≠ Idk.anonymousText →
      Idk.registerUser caller now p s =
        (StableBTreeMap.insert caller ⟨p.username, p.email, p.secret, now⟩ s,
          Result.Ok ⟨p.username, p.email, p.secret, now⟩))
    ∧ (caller = Idk.anonymousText →
      Idk.registerUser caller now p s =
        (s, Result.Err "Anonymous users are not allowed to register accounts")) := by
  constructor
  · intro h
    simp [Idk.registerUser, h]
  · intro h
    simp [Idk.registerUser, h]

/-- C1, witness: the amended theorem applied at caller aaaaa-aa, time
5, a concrete payload and the empty store. -/
theorem c1_witness :
    Idk.registerUser "aaaaa-aa" 5 ⟨"al", "a@x", "s1"⟩ [] =
      (StableBTreeMap.insert "aaaaa-aa" ⟨"al", "a@x", "s1", 5⟩ [],
        Result.Ok ⟨"al", "a@x", "s1", 5⟩) :=
  (c1_amended_thm "aaaaa-aa" 5 ⟨"al", "a@x", "s1"⟩ []).1 (by decide)

/-- C2, code evaluation: in the identity-keyed variant, deleteUser
returns the authorization error and leaves the store unchanged for
every caller, every admin principal, every target id and every store —
the admin included — because the guard compares the caller Principal
object with the stored admin Principal object by JavaScript reference
equality, which is false for the two separately constructed objects.
The admin branch, and with it every successful deletion, is
unreachable, contradicting the stated admin-gated deletion and the
comment of the source that only the admin is allowed to delete. -/
theorem c2_deleteUser_always_unauthorized (caller admin id : String)
    (s : Store Idk.User) :
    Idk.deleteUser caller admin id s = (s, Result.Err "You are not authorized") := rfl

/-- C7, counterexample: in the identity-keyed variant, a successful
loginUser call leaves the store — and with it the stored record of the
caller — completely unchanged: no loggedIn flag and no sessionExpiry
is written (the User record has no such fields). -/
theorem c7_counterexample :
    (Idk.loginUser "aaaaa-aa" [("aaaaa-aa", ⟨"al", "a@x", "s1", 10⟩)]).2 =
      Result.Ok ⟨"al", "a@x", "s1", 10⟩
    ∧ (Idk.loginUser "aaaaa-aa" [("aaaaa-aa", ⟨"al", "a@x", "s1", 10⟩)]).1 =
      [("aaaaa-aa", ⟨"al", "a@x", "s1", 10⟩)] := by
  decide

/-- C7, amended: in the identity-keyed variant, loginUser is a
read-only query: it never changes the store, and on success it returns
exactly the record stored for the caller identity; no session state of
any kind is updated. -/
theorem c7_amended_thm (caller : String) (s : Store Idk.User) :
    (Idk.loginUser caller s).1 = s
    ∧ ∀ u : Idk.User, (Idk.loginUser caller s).2 = Result.Ok u →
        StableBTreeMap.get s caller = some u := by
  cases h : StableBTreeMap.get s caller with
  | none =>
    refine ⟨by simp [Idk.loginUser, h], fun u hu => ?_⟩
    simp [Idk.loginUser, h] at hu
  | some u0 =>
    refine ⟨by simp [Idk.loginUser, h], fun u hu => ?_⟩
    simp [Idk.loginUser, h] at hu
    simp [h, hu]

/-- C7, witness: the amended theorem applied at a concrete caller and
a concrete one-record store on which login succeeds. -/
theorem c7_witness :
    StableBTreeMap.get [("aaaaa-aa", (⟨"al", "a@x", "s1", 10⟩ : Idk.User))]
      "aaaaa-aa" = some ⟨"al", "a@x", "s1", 10⟩ :=
  (c7_amended_thm "aaaaa-aa" [("aaaaa-aa", ⟨"al", "a@x", "s1", 10⟩)]).2
    ⟨"al", "a@x", "s1", 10⟩ (by decide)

/-- C10: in the generated-key variant, registerUser returns Ok with
the created record for every payload and every store state — it never
returns an error and checks no uniqueness of username or email — and
after registering the same payload twice under two fresh ids the store
holds two distinct records sharing the same email and username. -/
theorem c10_thm :
    (∀ (newId : String) (now : Nat) (p : Gen.UserPayload) (s : Store Gen.User),
      (Gen.registerUser newId now p s).2 =
        Result.Ok ⟨newId, p.username, p.email, p.password, now, none⟩)
    ∧ (let p : Gen.UserPayload := ⟨"al", "a@x", "pw"⟩
       let s2 := (Gen.registerUser "id2" 2 p (Gen.registerUser "id1" 1 p []).1).1
       (⟨"id1", "al", "a@x", "pw", 1, none⟩ : Gen.User) ∈ StableBTreeMap.values s2
       ∧ (⟨"id2", "al", "a@x", "pw", 2, none⟩ : Gen.User) ∈ StableBTreeMap.values s2
       ∧ (⟨"id1", "al", "a@x", "pw", 1, none⟩ : Gen.User) ≠
           ⟨"id2", "al", "a@x", "pw", 2, none⟩
       ∧ (⟨"id1", "al", "a@x", "pw", 1, none⟩ : Gen.User).email =
           (⟨"id2", "al", "a@x", "pw", 2, none⟩ : Gen.User).email
       ∧ (⟨"id1", "al", "a@x", "pw", 1, none⟩ : Gen.User).username =
           (⟨"id2", "al", "a@x", "pw", 2, none⟩ : Gen.User).username) :=
  ⟨fun _ _ _ _ => rfl, by decide⟩

/-- C3: for every exposed operation of either variant and every store
state, if the operation returns an error result then the store after
the call equals the store before it: no operation partially applies
its effect. -/
theorem c3_thm :
    (∀ (o : Gen.Op) (s : Store Gen.User) (e : String),
      (Gen.step o s).2 = Result.Err e → (Gen.step o s).1 = s)
    ∧ (∀ (o : Idk.Op) (s : Store Idk.User) (e : String),
      (Idk.step o s).2 = Result.Err e → (Idk.step o s).1 = s) := by
  constructor
  · intro o s e h
    cases o with
    | getUsersOp => rfl
    | getUserOp id => rfl
    | registerUserOp newId now p =>
      simp [Gen.step, Gen.registerUser, Result.mapOk] at h
    | loginUserOp u p => rfl
    | deleteUserOp id =>
      simp only [Gen.step, Gen.deleteUser] at h ⊢
      rcases hr : StableBTreeMap.remove id s with ⟨s1, ov⟩
      cases ov with
      | some du =>
        rw [hr] at h
        simp [Result.mapOk] at h
      | none =>
        have h1 := StableBTreeMap.remove_eq_of_none (k := id) (s := s)
          (by rw [hr])
        rw [hr] at h1
        simpa using h1
    | updateUserOp id p =>
      simp only [Gen.step, Gen.updateUser] at h ⊢
      rcases hg : StableBTreeMap.get s id with _ | user
      · rfl
      · rw [hg] at h
        simp [Result.mapOk] at h
    | changePasswordOp id pw =>
      simp only [Gen.step, Gen.changePassword] at h ⊢
      rcases hg : StableBTreeMap.get s id with _ | user
      · rfl
      · rw [hg] at h
        simp [Result.mapOk] at h
    | requestPasswordResetOp rnd email =>
      simp only [Gen.step, Gen.requestPasswordReset] at h ⊢
      rcases hf : (StableBTreeMap.values s).find? (Gen.emailMatch email)
        with _ | user
      · rfl
      · rw [hf] at h
        simp [Result.mapOk] at h
    | resetPasswordOp tok pw =>
      simp only [Gen.step, Gen.resetPassword] at h ⊢
      rcases hf : (StableBTreeMap.values s).find? (Gen.tokenMatch tok)
        with _ | user
      · rfl
      · rw [hf] at h
        simp [Result.mapOk] at h
  · intro o s e h
    cases o with
    | getUsersOp => rfl
    | getUserOp id => rfl
    | registerUserOp caller now p =>
      by_cases hc : caller == Idk.anonymousText
      · simp [Idk.step, Idk.registerUser, hc]
      · simp [Idk.step, Idk.registerUser, hc, Result.mapOk] at h
    | loginUserOp caller =>
      simp only [Idk.step]
      exact Idk.loginUser_fst caller s
    | deleteUserOp caller admin id => rfl
    | reclaimAccountOp caller account secret =>
      simp only [Idk.step, Idk.reclaimAccount] at h ⊢
      rcases hg : StableBTreeMap.get s account with _ | old
      · rfl
      · by_cases hs : old.secret == secret
        · rw [hg] at h
          simp [hs, Result.mapOk] at h
        · simp [hs]

/-- C3, witness: two concrete error calls — a getUser miss in the
generated-key variant and an unauthorized deleteUser in the
identity-keyed variant — leave the (empty) store unchanged. -/
theorem c3_witness :
    (Gen.step (Gen.Op.getUserOp "x") ([] : Store Gen.User)).1 = []
    ∧ (Idk.step (Idk.Op.deleteUserOp "a" "b" "c") ([] : Store Idk.User)).1 = [] :=
  ⟨c3_thm.1 _ _ "User with id=x not found" (by decide),
   c3_thm.2 _ _ "You are not authorized" (by decide)⟩

/-- C9: in the generated-key variant, the empty initial store is
key-consistent (every stored record has its id field equal to its
key), and every exposed operation — registerUser, updateUser,
changePassword, requestPasswordReset, resetPassword, deleteUser, and
the queries — preserves key-consistency, so it holds in every
reachable store state. -/
theorem c9_thm :
    Gen.WF ([] : Store Gen.User)
    ∧ ∀ (o : Gen.Op) (s : Store Gen.User),
        Gen.WF s → Gen.WF (Gen.step o s).1 := by
  refine ⟨fun kv hm => absurd hm (List.not_mem_nil kv), fun o s h => ?_⟩
  cases o with
  | getUsersOp => exact h
  | getUserOp id => exact h
  | loginUserOp u p => exact h
  | registerUserOp newId now p =>
    simp only [Gen.step, Gen.registerUser]
    exact Gen.WF_insert rfl h
  | deleteUserOp id =>
    simp only [Gen.step, Gen.deleteUser]
    rcases hr : StableBTreeMap.remove id s with ⟨s1, ov⟩
    have hsub : ∀ kv, kv ∈ s1 → kv ∈ s := fun kv hm =>
      StableBTreeMap.mem_remove (k := id) (s := s) (by rw [hr]; exact hm)
    cases ov with
    | some du => exact fun kv hm => h kv (hsub kv hm)
    | none => exact fun kv hm => h kv (hsub kv hm)
  | updateUserOp id p =>
    simp only [Gen.step, Gen.updateUser]
    rcases hg : StableBTreeMap.get s id with _ | user
    · exact h
    · have hid : user.id = id := h (id, user) (StableBTreeMap.get_mem hg)
      exact Gen.WF_insert hid h
  | changePasswordOp id pw =>
    simp only [Gen.step, Gen.changePassword]
    rcases hg : StableBTreeMap.get s id with _ | user
    · exact h
    · have hid : user.id = id := h (id, user) (StableBTreeMap.get_mem hg)
      exact Gen.WF_insert hid h
  | requestPasswordResetOp rnd email =>
    simp only [Gen.step, Gen.requestPasswordReset]
    rcases hf : (StableBTreeMap.values s).find? (Gen.emailMatch email)
      with _ | user
    · exact h
    · exact Gen.WF_insert rfl h
  | resetPasswordOp tok pw =>
    simp only [Gen.step, Gen.resetPassword]
    rcases hf : (StableBTreeMap.values s).find? (Gen.tokenMatch tok)
      with _ | user
    · exact h
    · exact Gen.WF_insert rfl h

/-- C9, witness: the preservation half applied to a concrete
registration on the empty (key-consistent) store. -/
theorem c9_witness :
    Gen.WF (Gen.step (Gen.Op.registerUserOp "id1" 1 ⟨"al", "a@x", "pw"⟩) []).1 :=
  c9_thm.2 _ [] (by decide)

/-- C5: for every store state, credential-based loginUser returns the
first record in store order whose username and password both equal the
inputs exactly; it succeeds if and only if such a record exists; and
whenever no record matches — whether the username exists with another
password or not at all — it returns the one fixed error value. -/
theorem c5_thm (s : Store Gen.User) (username password : String) :
    (∀ u : Gen.User, Gen.loginUser username password s = Result.Ok u →
      (u.username = username ∧ u.password = password)
      ∧ ∃ l1 l2, StableBTreeMap.values s = l1 ++ u :: l2
          ∧ ∀ v ∈ l1, ¬(v.username = username ∧ v.password = password))
    ∧ ((∃ u ∈ StableBTreeMap.values s,
          u.username = username ∧ u.password = password)
        ↔ ∃ u : Gen.User, Gen.loginUser username password s = Result.Ok u)
    ∧ ((¬ ∃ u ∈ StableBTreeMap.values s,
          u.username = username ∧ u.password = password) →
        Gen.loginUser username password s =
          Result.Err "Invalid username or password") := by
  refine ⟨?_, ⟨?_, ?_⟩, ?_⟩
  · intro u hu
    rcases hf : (StableBTreeMap.values s).find?
        (Gen.loginMatch username password) with _ | u0
    · simp [Gen.loginUser, hf] at hu
    · simp only [Gen.loginUser, hf, Result.Ok.injEq] at hu
      subst hu
      obtain ⟨hp, as, bs, heq, hbefore⟩ := List.find?_eq_some.mp hf
      refine ⟨(loginMatch_iff username password u0).mp hp, as, bs, heq, ?_⟩
      intro v hv hc
      have hb := hbefore v hv
      rw [(loginMatch_iff username password v).mpr hc] at hb
      simp at hb
  · rintro ⟨u, hm, hu⟩
    rcases hf : (StableBTreeMap.values s).find?
        (Gen.loginMatch username password) with _ | u0
    · rw [List.find?_eq_none] at hf
      exact absurd ((loginMatch_iff username password u).mpr hu) (hf u hm)
    · exact ⟨u0, by simp [Gen.loginUser, hf]⟩
  · rintro ⟨u, hu⟩
    rcases hf : (StableBTreeMap.values s).find?
        (Gen.loginMatch username password) with _ | u0
    · simp [Gen.loginUser, hf] at hu
    · exact ⟨u0, List.mem_of_find?_eq_some hf,
        (loginMatch_iff username password u0).mp (List.find?_some hf)⟩
  · intro hne
    rcases hf : (StableBTreeMap.values s).find?
        (Gen.loginMatch username password) with _ | u0
    · simp [Gen.loginUser, hf]
    · exact absurd ⟨u0, List.mem_of_find?_eq_some hf,
        (loginMatch_iff username password u0).mp (List.find?_some hf)⟩ hne

/-- C5, witness: on the empty store, login fails with the fixed error
value. -/
theorem c5_witness :
    Gen.loginUser "al" "pw" ([] : Store Gen.User) =
      Result.Err "Invalid username or password" :=
  (c5_thm [] "al" "pw").2.2 (by decide)

/-- C6: for every store state holding a record at the target key, if
the secret equals the stored secret then reclaimAccount inserts that
record under the caller key, returns the confirmation string (not the
record), and both the caller key and the old key then map to the
record — the old entry is not removed; if the secret differs, it
returns an error and the store is unchanged. -/
theorem c6_thm (caller account secret : String) (s : Store Idk.User)
    (u : Idk.User) (hget : StableBTreeMap.get s account = some u) :
    (u.secret = secret →
      Idk.reclaimAccount caller account secret s =
        (StableBTreeMap.insert caller u s, Result.Ok Idk.reclaimMessage)
      ∧ StableBTreeMap.get (StableBTreeMap.insert caller u s) caller = some u
      ∧ StableBTreeMap.get (StableBTreeMap.insert caller u s) account = some u)
    ∧ (u.secret ≠ secret →
      Idk.reclaimAccount caller account secret s =
        (s, Result.Err "The secrets dont match, try again later")) := by
  constructor
  · intro hsec
    refine ⟨by simp [Idk.reclaimAccount, hget, hsec],
      StableBTreeMap.get_insert_self caller u s, ?_⟩
    by_cases hca : account = caller
    · subst hca
      exact StableBTreeMap.get_insert_self account u s
    · rw [StableBTreeMap.get_insert_ne u s hca]
      exact hget
  · intro hsec
    simp [Idk.reclaimAccount, hget, hsec]

/-- C6, witness: a concrete reclaim with a matching secret; afterwards
the old key still maps to the record. -/
theorem c6_witness :
    StableBTreeMap.get
      (StableBTreeMap.insert "c1" (⟨"al", "a@x", "sec", 5⟩ : Idk.User)
        [("a1", ⟨"al", "a@x", "sec", 5⟩)]) "a1" =
      some ⟨"al", "a@x", "sec", 5⟩ :=
  ((c6_thm "c1" "a1" "sec" [("a1", ⟨"al", "a@x", "sec", 5⟩)]
      ⟨"al", "a@x", "sec", 5⟩ (by decide)).1 (by decide)).2.2

/-- C8: for every store state, requestPasswordReset with an email
matching no stored record returns the NotFound error and (as the pair
shows) leaves the store unchanged; with an email matching some record
— the first found in store order — it returns a token of exactly 5
characters, all alphanumeric, and stores that token as the matched
record resetToken under the record id. -/
theorem c8_thm (rnd : Gen.Rand) (email : String) (s : Store Gen.User) :
    ((∀ u ∈ StableBTreeMap.values s, Gen.emailMatch email u = false) →
      Gen.requestPasswordReset rnd email s =
        (s, Result.Err "User with the specified email not found"))
    ∧ (∀ u : Gen.User,
        (StableBTreeMap.values s).find? (Gen.emailMatch email) = some u →
        Gen.requestPasswordReset rnd email s =
          (StableBTreeMap.insert u.id
              { u with resetToken := some (Gen.generateResetToken rnd) } s,
            Result.Ok (Gen.generateResetToken rnd))
        ∧ (Gen.generateResetToken rnd).length = 5
        ∧ (∀ c ∈ (Gen.generateResetToken rnd).data, Gen.isAlnum c = true)
        ∧ StableBTreeMap.get (Gen.requestPasswordReset rnd email s).1 u.id =
            some { u with resetToken := some (Gen.generateResetToken rnd) }) := by
  constructor
  · intro hall
    have hf : (StableBTreeMap.values s).find? (Gen.emailMatch email) = none := by
      rw [List.find?_eq_none]
      intro x hx
      simp [hall x hx]
    simp [Gen.requestPasswordReset, hf]
  · intro u hf
    have he : Gen.requestPasswordReset rnd email s =
        (StableBTreeMap.insert u.id
            { u with resetToken := some (Gen.generateResetToken rnd) } s,
          Result.Ok (Gen.generateResetToken rnd)) := by
      simp [Gen.requestPasswordReset, hf]
    refine ⟨he, generateResetToken_length rnd, generateResetToken_chars rnd, ?_⟩
    rw [he]
    exact StableBTreeMap.get_insert_self _ _ _

/-- C8, witness: a concrete request on a one-record store; the token
is stored on the matched record. -/
theorem c8_witness :
    StableBTreeMap.get
      (Gen.requestPasswordReset (fun _ => (0 : Fin 62)) "e@x"
        [("k1", ⟨"k1", "al", "e@x", "pw", 1, none⟩)]).1 "k1" =
      some ⟨"k1", "al", "e@x", "pw", 1,
        some (Gen.generateResetToken (fun _ => (0 : Fin 62)))⟩ :=
  ((c8_thm (fun _ => 0) "e@x" [("k1", ⟨"k1", "al", "e@x", "pw", 1, none⟩)]).2
    ⟨"k1", "al", "e@x", "pw", 1, none⟩ (by decide)).2.2.2

/-- C4, counterexample: on a sorted, key-consistent store in which two
records hold the same resetToken value, resetPassword with that token
succeeds twice: the claim that a second call after a successful
redemption always returns the invalid-token error fails for such
stores. -/
theorem c4_counterexample :
    SortedKeys [("a", (⟨"a", "al", "a@x", "pw", 1, some "TTTTT"⟩ : Gen.User)),
        ("b", ⟨"b", "bo", "b@x", "pw", 2, some "TTTTT"⟩)]
    ∧ Gen.WF [("a", ⟨"a", "al", "a@x", "pw", 1, some "TTTTT"⟩),
        ("b", ⟨"b", "bo", "b@x", "pw", 2, some "TTTTT"⟩)]
    ∧ (Gen.resetPassword "TTTTT" "n1"
        [("a", ⟨"a", "al", "a@x", "pw", 1, some "TTTTT"⟩),
          ("b", ⟨"b", "bo", "b@x", "pw", 2, some "TTTTT"⟩)]).2 =
      Result.Ok ⟨"a", "al", "a@x", "n1", 1, none⟩
    ∧ (Gen.resetPassword "TTTTT" "n2"
        (Gen.resetPassword "TTTTT" "n1"
          [("a", ⟨"a", "al", "a@x", "pw", 1, some "TTTTT"⟩),
            ("b", ⟨"b", "bo", "b@x", "pw", 2, some "TTTTT"⟩)]).1).2 =
      Result.Ok ⟨"b", "bo", "b@x", "n2", 2, none⟩ := by
  decide

/-- C4, amended: resetPassword with a token held by some stored record
— the first match in store order — overwrites that record password,
clears its resetToken and returns the updated record; and provided the
store is sorted and the only store entry holding the token is that
record stored under its own id, a second call with the same token
returns the invalid-token error: redemption is then exactly-once. -/
theorem c4_amended_thm (s : Store Gen.User) (tok newPw : String)
    (u : Gen.User)
    (hfind : (StableBTreeMap.values s).find? (Gen.tokenMatch tok) = some u) :
    (Gen.resetPassword tok newPw s =
        (StableBTreeMap.insert u.id
            { u with password := newPw, resetToken := none } s,
          Result.Ok { u with password := newPw, resetToken := none })
      ∧ StableBTreeMap.get (Gen.resetPassword tok newPw s).1 u.id =
          some { u with password := newPw, resetToken := none })
    ∧ (SortedKeys s →
        (∀ kv ∈ s, (Prod.snd kv).resetToken = some tok → kv = (u.id, u)) →
        ∀ newPw2 : String,
          (Gen.resetPassword tok newPw2 (Gen.resetPassword tok newPw s).1).2 =
            Result.Err "Invalid or expired reset token") := by
  have he : Gen.resetPassword tok newPw s =
      (StableBTreeMap.insert u.id
          { u with password := newPw, resetToken := none } s,
        Result.Ok { u with password := newPw, resetToken := none }) := by
    simp [Gen.resetPassword, hfind]
  refine ⟨⟨he, by rw [he]; exact StableBTreeMap.get_insert_self _ _ _⟩, ?_⟩
  intro hsorted huniq newPw2
  have hnone : (StableBTreeMap.values
      (Gen.resetPassword tok newPw s).1).find? (Gen.tokenMatch tok) = none := by
    rw [he]
    rw [List.find?_eq_none]
    intro v hv
    rw [StableBTreeMap.mem_values] at hv
    obtain ⟨k, hk⟩ := hv
    rcases (StableBTreeMap.mem_insert_iff_of_sorted hsorted (k, v)).mp hk
      with h1 | ⟨h2, hne⟩
    · have hveq : v = { u with password := newPw, resetToken := none } :=
        congrArg Prod.snd h1
      simp [Gen.tokenMatch, hveq]
    · intro hmatch
      have hv2 : v.resetToken = some tok := by
        simpa [Gen.tokenMatch] using hmatch
      exact hne (congrArg Prod.fst (huniq (k, v) h2 hv2))
  have hgen : ∀ (pw : String) (s2 : Store Gen.User),
      (StableBTreeMap.values s2).find? (Gen.tokenMatch tok) = none →
      Gen.resetPassword tok pw s2 =
        (s2, Result.Err "Invalid or expired reset token") := by
    intro pw s2 hf
    simp [Gen.resetPassword, hf]
  rw [hgen newPw2 (Gen.resetPassword tok newPw s).1 hnone]

/-- C4, witness: the amended theorem applied on a one-record sorted
store; the second redemption of the token fails. -/
theorem c4_witness :
    (Gen.resetPassword "TTTTT" "n2"
        (Gen.resetPassword "TTTTT" "n1"
          [("a", (⟨"a", "al", "a@x", "pw", 1, some "TTTTT"⟩ : Gen.User))]).1).2 =
      Result.Err "Invalid or expired reset token" :=
  (c4_amended_thm [("a", ⟨"a", "al", "a@x", "pw", 1, some "TTTTT"⟩)] "TTTTT"
      "n1" ⟨"a", "al", "a@x", "pw", 1, some "TTTTT"⟩ (by decide)).2
    (by decide) (by decide) "n2"
